import Mathlib

/-!
# Item_Pena: the item manager of `App.js`

A shallow embedding of `src/Item_Pena/App.js`: the `items` table kept by SQLite, the four
pieces of React state of the `App` component, the handlers `setupDatabase`, `fetchItems`,
`addItem`, `editItem`, `updateItem`, `deleteItem`, the derived list `filteredItems` and the
handler of the "Add <query>" button.

Conventions of the embedding.

* A string is the list of its code points (`Str`).
* `Alert.alert` is modelled by the value a handler returns (`Outcome`): nothing shown, a notice
  with the default button, or a Cancel/Confirm prompt.  The `onPress` closure of the Confirm
  button is kept as data (`Commit`: what it captured from the render) and run by `commit`.
* Every handler reads the state of the render it was created in, which is the `State` it is
  given here.
* Row ids are natural numbers (the 64-bit ceiling of SQLite rowids is out of reach of
  single-row inserts and is not modelled); rows are listed in rowid order, which is the order
  of a table scan without `ORDER BY`.
-/

namespace ItemPena

/-- A JavaScript / SQLite text value, as the list of its code points. -/
abbrev Str := List Char

/-! ## Runtime functions used by the source -/

/-- ECMAScript `WhiteSpace` and `LineTerminator` code points: what `String.prototype.trim`
strips. -/
def isWhiteSpace (c : Char) : Bool :=
  let n := c.toNat
  n == 0x09 || n == 0x0A || n == 0x0B || n == 0x0C || n == 0x0D || n == 0x20 || n == 0xA0 ||
  n == 0x1680 || (0x2000 ≤ n && n ≤ 0x200A) || n == 0x2028 || n == 0x2029 || n == 0x202F ||
  n == 0x205F || n == 0x3000 || n == 0xFEFF

/-- `String.prototype.trimStart`. -/
def trimStart (s : Str) : Str :=
  s.dropWhile isWhiteSpace

/-- `String.prototype.trimEnd`. -/
def trimEnd (s : Str) : Str :=
  (s.reverse.dropWhile isWhiteSpace).reverse

/-- `String.prototype.trim`: strips white space from both ends. -/
def trim (s : Str) : Str :=
  trimEnd (trimStart s)

/-- `String.prototype.includes(t)` with the default start position 0: does `t` occur in `s`
at some index. -/
def includes : Str → Str → Bool
  | [], t => t.isEmpty
  | c :: s, t => t.isPrefixOf (c :: s) || includes s t

/-- Lower-casing of one character by SQLite's built-in `lower()`: the 26 ASCII capitals are
folded, every other code point is left alone. -/
def lowerChar (c : Char) : Char :=
  if 65 ≤ c.toNat ∧ c.toNat ≤ 90 then Char.ofNat (c.toNat + 32) else c

/-- SQLite's built-in SQL function `LOWER(X)`. -/
def LOWER (s : Str) : Str :=
  s.map lowerChar

/-- `String.prototype.toLowerCase` on a string of ASCII characters, where it folds `A`-`Z` and
nothing else.  (On other code points the engine follows the Unicode case tables; this
function leaves them alone, and is used only to evaluate `filteredItems` on ASCII names.) -/
def toLowerCaseASCII (s : Str) : Str :=
  s.map lowerChar

/-! ## Data model -/

/-- A row of `items(id INTEGER PRIMARY KEY AUTOINCREMENT, name TEXT)`; also the shape of the
objects `fetchItems` puts into the `items` state. -/
structure Item where
  id : Nat
  name : Str
  deriving DecidableEq, Repr

/-- The `items` table of `items.db`: its rows in rowid order and the `sqlite_sequence` entry
kept for the `AUTOINCREMENT` column (the largest rowid ever handed out). -/
structure Table where
  rows : List Item
  seq : Nat
  deriving DecidableEq, Repr

/-- The largest rowid present in a list of rows (0 when there is none). -/
def maxId (rows : List Item) : Nat :=
  rows.foldr (fun r m => max r.id m) 0

/-- The rowid `AUTOINCREMENT` gives the next inserted row: one more than the largest rowid
that is or ever was in the table. -/
def Table.nextId (t : Table) : Nat :=
  max t.seq (maxId t.rows) + 1

/-- SQL `INSERT INTO items (name) VALUES (?);`. -/
def Table.insert (t : Table) (name : Str) : Table :=
  { rows := t.rows ++ [{ id := t.nextId, name := name }], seq := t.nextId }

/-- SQL `UPDATE items SET name = ? WHERE id = ?;`. -/
def Table.update (t : Table) (name : Str) (id : Nat) : Table :=
  { t with rows := t.rows.map (fun r => if r.id = id then { r with name := name } else r) }

/-- SQL `DELETE FROM items WHERE id = ?;`. -/
def Table.delete (t : Table) (id : Nat) : Table :=
  { t with rows := t.rows.filter (fun r => r.id ≠ id) }

/-- The module-level handle `db`, the table behind it, and the React state of `App`. -/
structure State where
  /-- Is the module-level `db` non-null. -/
  db : Bool
  /-- The contents of the `items` table in `items.db`. -/
  table : Table
  text : Str
  items : List Item
  editingItem : Option Item
  searchQuery : Str
  deriving DecidableEq, Repr

/-- What the `onPress` closure of a Confirm button does, with the values it captured. -/
inductive Commit where
  /-- The closure of `addItem`: insert `name`, clear the input and the search, refetch. -/
  | insert (name : Str)
  /-- The closure of `updateItem`: rename row `id`, clear the input and the edit target,
  refetch. -/
  | update (name : Str) (id : Nat)
  /-- The closure of `deleteItem`: delete row `id`, refetch. -/
  | delete (id : Nat)
  deriving DecidableEq, Repr

/-- What a handler shows through `Alert.alert`. -/
inductive Outcome where
  /-- The handler returned without showing anything. -/
  | returned
  /-- The alert `Alert.alert(title, message)`: a notice with the default button only. -/
  | alert (title message : Str)
  /-- The alert `Alert.alert(title, message, [Cancel, Confirm])`. -/
  | confirm (title message : Str) (onPress : Commit)
  deriving DecidableEq, Repr

/-- The button the user presses on a Cancel/Confirm alert. -/
inductive Button where
  | cancel
  | confirm
  deriving DecidableEq, Repr

/-! ## The handlers -/

/-- The source's `setupDatabase`: open the database, create the table if absent, and seed it
when `SELECT COUNT(*)` is 0. -/
def setupDatabase (s : State) : State :=
  if s.table.rows.length = 0 then
    { s with
      db := true
      table := ((s.table.insert "test1".toList).insert "test2".toList).insert "test3".toList }
  else
    { s with db := true }

/-- The source's `fetchItems`: `SELECT id, name FROM items;` into the `items` state. -/
def fetchItems (s : State) : State :=
  if !s.db then s
  else { s with items := s.table.rows.map (fun row => { id := row.id, name := row.name }) }

/-- The effect run on mount: `setupDatabase().then(fetchItems)`. -/
def mount (s : State) : State :=
  fetchItems (setupDatabase s)

/-- The notice `addItem` shows on a duplicate. -/
def duplicateAdd : Outcome :=
  .alert "Duplicate item".toList "This item already exists.".toList

/-- The notice `updateItem` shows on a duplicate. -/
def duplicateUpdate : Outcome :=
  .alert "Duplicate item".toList "Another item with this name already exists.".toList

/-- The source's `addItem`, up to the alert it shows. -/
def addItem (s : State) : Outcome :=
  if !s.db || trim s.text == [] then .returned
  else
    let existing := s.table.rows.filter (fun r => LOWER r.name == LOWER (trim s.text))
    if existing.length > 0 then duplicateAdd
    else
      .confirm "Confirm Add".toList
        ("Are you sure you want to add \"".toList ++ trim s.text ++ "\"?".toList)
        (.insert (trim s.text))

/-- The source's `editItem`. -/
def editItem (s : State) (item : Item) : State :=
  { s with text := item.name, editingItem := some item }

/-- The source's `updateItem`, up to the alert it shows. -/
def updateItem (s : State) : Outcome :=
  match s.editingItem with
  | none => .returned
  | some editingItem =>
    if !s.db || trim s.text == [] then .returned
    else
      let existing := s.table.rows.filter
        (fun r => LOWER r.name == LOWER (trim s.text) && r.id != editingItem.id)
      if existing.length > 0 then duplicateUpdate
      else
        .confirm "Confirm Update".toList
          ("Are you sure you want to update the item to \"".toList ++ trim s.text
            ++ "\"?".toList)
          (.update (trim s.text) editingItem.id)

/-- The source's `deleteItem`, up to the alert it shows. -/
def deleteItem (s : State) (id : Nat) : Outcome :=
  if !s.db then .returned
  else
    .confirm "Confirm Delete".toList "Are you sure you want to delete this item?".toList
      (.delete id)

/-- Running the `onPress` closure of a Confirm button in state `s`. -/
def commit (c : Commit) (s : State) : State :=
  match c with
  | .insert name =>
    fetchItems { s with table := s.table.insert name, text := [], searchQuery := [] }
  | .update name id =>
    fetchItems { s with table := s.table.update name id, text := [], editingItem := none }
  | .delete id =>
    fetchItems { s with table := s.table.delete id }

/-- The state after the user has dealt with what a handler showed: only the Confirm button of
a prompt runs anything. -/
def resolve (o : Outcome) (b : Button) (s : State) : State :=
  match o, b with
  | .confirm _ _ c, .confirm => commit c s
  | _, _ => s

/-- The derived list `filteredItems`; `toLowerCase` is `String.prototype.toLowerCase` of the
JavaScript engine. -/
def filteredItems (toLowerCase : Str → Str) (s : State) : List Item :=
  s.items.filter (fun item => includes (toLowerCase item.name) (toLowerCase s.searchQuery))

/-- The `onPress` of the "Add <query>" button: `setText(searchQuery); addItem();`.  `addItem`
is the closure of the render in which the button was pressed, so it reads that render's
`text`; the queued `setText` is applied before anything the alert does. -/
def pressAddFromSearch (s : State) (b : Button) : State :=
  resolve (addItem s) b { s with text := s.searchQuery }

/-- What the user can do on the screen. -/
inductive Action where
  /-- Typing in the item input (`handleTextChange`), or its clear button. -/
  | handleTextChange (inputText : Str)
  /-- Typing in the search input (`setSearchQuery`), or its clear button. -/
  | setSearchQuery (query : Str)
  /-- The Edit button of a row. -/
  | editItem (item : Item)
  /-- The Add button, and the button pressed on the prompt if one is shown. -/
  | addItem (b : Button)
  /-- The Update button, and the button pressed on the prompt if one is shown. -/
  | updateItem (b : Button)
  /-- The Delete button of a row, and the button pressed on the prompt. -/
  | deleteItem (id : Nat) (b : Button)
  /-- The "Add <query>" button, and the button pressed on the prompt if one is shown. -/
  | pressAddFromSearch (b : Button)
  deriving DecidableEq, Repr

/-- One user action, carried through to the end before the next one starts. -/
def step (s : State) : Action → State
  | .handleTextChange inputText => { s with text := inputText }
  | .setSearchQuery query => { s with searchQuery := query }
  | .editItem item => editItem s item
  | .addItem b => resolve (addItem s) b s
  | .updateItem b => resolve (updateItem s) b s
  | .deleteItem id b => resolve (deleteItem s id) b s
  | .pressAddFromSearch b => pressAddFromSearch s b

/-- A sequence of user actions, one after the other. -/
def run (s : State) (actions : List Action) : State :=
  actions.foldl step s

/-- No two rows have names that `LOWER` makes equal: uniqueness as the queries of `addItem`
and `updateItem` test it. -/
def UniqueNames (rows : List Item) : Prop :=
  rows.Pairwise (fun a b => LOWER a.name ≠ LOWER b.name)

/-- The state of the filter example: the listing Apple, Banana, grape and the query AP. -/
def fruits : State :=
  { db := true
    table := { rows := [⟨1, "Apple".toList⟩, ⟨2, "Banana".toList⟩, ⟨3, "grape".toList⟩], seq := 3 }
    text := []
    items := [⟨1, "Apple".toList⟩, ⟨2, "Banana".toList⟩, ⟨3, "grape".toList⟩]
    editingItem := none
    searchQuery := "AP".toList }

/-- A first launch: no handle yet, an empty table, empty inputs. -/
def fresh : State :=
  { db := false, table := { rows := [], seq := 0 }, text := [], items := [],
    editingItem := none, searchQuery := [] }

/-- An open store holding the one item Apple, with `text` typed in the item input. -/
def appleStore (text : Str) : State :=
  { db := true
    table := { rows := [⟨1, "Apple".toList⟩], seq := 1 }
    text := text
    items := [⟨1, "Apple".toList⟩]
    editingItem := none
    searchQuery := [] }

/-- An open store holding Apple (id 1) and Banana (id 2), with item 1 being edited and `text`
typed in the item input. -/
def appleBanana (text : Str) : State :=
  { db := true
    table := { rows := [⟨1, "Apple".toList⟩, ⟨2, "Banana".toList⟩], seq := 2 }
    text := text
    items := [⟨1, "Apple".toList⟩, ⟨2, "Banana".toList⟩]
    editingItem := some ⟨1, "Apple".toList⟩
    searchQuery := [] }

/-- A launch over a database that already holds Apple, before `setupDatabase` has set the
handle: apple is typed in the item input. -/
def unopened : State :=
  { db := false
    table := { rows := [⟨1, "Apple".toList⟩], seq := 1 }
    text := "apple".toList
    items := []
    editingItem := none
    searchQuery := [] }

/-- A session on the seeded store that tries both duplicates and fresh names. -/
def session : List Action :=
  [ .handleTextChange "TEST1".toList, .addItem .confirm,
    .handleTextChange " Pear ".toList, .addItem .confirm,
    .editItem ⟨2, "test2".toList⟩,
    .handleTextChange "pear".toList, .updateItem .confirm,
    .handleTextChange "Test2".toList, .updateItem .confirm,
    .deleteItem 1 .confirm,
    .setSearchQuery "kiwi".toList, .pressAddFromSearch .confirm,
    .handleTextChange "test3".toList, .addItem .cancel ]

/-- A session on the seeded store that adds the name ECLAIR with a capital E acute (U+00C9)
and then the same name in small letters, with e acute (U+00E9). -/
def eclairSession : List Action :=
  [ .handleTextChange "\u00c9CLAIR".toList, .addItem .confirm,
    .handleTextChange "\u00e9clair".toList, .addItem .confirm ]

/-- Lower-casing of one character of Basic Latin or Latin-1 Supplement as the Unicode case
tables have it, which is what `String.prototype.toLowerCase` does there: `A`-`Z` and the
capitals U+00C0-U+00DE (the multiplication sign U+00D7 is not a letter) go 32 code points up;
any other code point is left alone. -/
def lowerCharLatin1 (c : Char) : Char :=
  if (65 ≤ c.toNat ∧ c.toNat ≤ 90) ∨ (0xC0 ≤ c.toNat ∧ c.toNat ≤ 0xDE ∧ c.toNat ≠ 0xD7) then
    Char.ofNat (c.toNat + 32)
  else c

/-- The comparison of the specification, "identical after lowercasing and comparing,
regardless of original casing", on names written in Basic Latin and Latin-1 Supplement. -/
def SameIgnoringCase (a b : Str) : Prop :=
  a.map lowerCharLatin1 = b.map lowerCharLatin1

/-- The invariant as the specification words it: no two rows have names that are the same
regardless of casing. -/
def CaseInsensitiveUnique (rows : List Item) : Prop :=
  rows.Pairwise (fun a b => ¬ SameIgnoringCase a.name b.name)

/-- Two names are the same up to the case of the ASCII letters `A`-`Z`: equal once each
character has gone through the library's `Char.toLower`, which touches those 26 only. -/
def SameIgnoringAsciiCase (a b : Str) : Prop :=
  a.map Char.toLower = b.map Char.toLower

/-- No two rows have names that are the same up to the case of ASCII letters. -/
def AsciiCaseUnique (rows : List Item) : Prop :=
  rows.Pairwise (fun a b => ¬ SameIgnoringAsciiCase a.name b.name)

/-- The row of the listing with the given name, if there is one. -/
def rowOf (s : State) (name : Str) : Option Item :=
  s.items.find? (fun r => r.name == name)

/-- Scenario, step 2: type test4 and confirm the Add prompt. -/
def scenarioAdd (s : State) : State :=
  run s [.handleTextChange "test4".toList, .addItem .confirm]

/-- Scenario, step 3: press Edit on the row of test2, type updated2 and confirm the Update
prompt. -/
def scenarioUpdate (s : State) : State :=
  match rowOf s "test2".toList with
  | some item =>
    run s [.editItem item, .handleTextChange "updated2".toList, .updateItem .confirm]
  | none => s

/-- Scenario, step 4: press Delete on the row of test1 and confirm the prompt. -/
def scenarioDelete (s : State) : State :=
  match rowOf s "test1".toList with
  | some item => run s [.deleteItem item.id .confirm]
  | none => s

/-- An open store with three rows, none of id 9999. -/
def threeRows : State :=
  { db := true
    table := { rows := [⟨1, "test1".toList⟩, ⟨2, "test2".toList⟩, ⟨5, "test3".toList⟩], seq := 7 }
    text := []
    items := [⟨1, "test1".toList⟩, ⟨2, "test2".toList⟩, ⟨5, "test3".toList⟩]
    editingItem := none
    searchQuery := [] }

/-- The seeded store with an empty search result: kiwi is searched, and either nothing or pear
is in the item input. -/
def searching (text : Str) : State :=
  { db := true
    table := { rows := [⟨1, "test1".toList⟩, ⟨2, "test2".toList⟩, ⟨3, "test3".toList⟩], seq := 3 }
    text := text
    items := [⟨1, "test1".toList⟩, ⟨2, "test2".toList⟩, ⟨3, "test3".toList⟩]
    editingItem := none
    searchQuery := "kiwi".toList }

/-- The invariant carried through the operations: no two rows share a `LOWER`ed name, and no
two rows share an id (the primary key). -/
def Inv (rows : List Item) : Prop :=
  rows.Pairwise (fun a b => LOWER a.name ≠ LOWER b.name ∧ a.id ≠ b.id)

/-- The names of a listing, in order. -/
def names (rows : List Item) : List Str :=
  rows.map (fun r => r.name)

end ItemPena

namespace ItemPena

/-! ## Facts about the runtime functions -/

theorem includes_iff (s t : Str) : includes s t = true ↔ t <:+: s := by
  induction s with
  | nil => simp [includes, List.isEmpty_iff]
  | cons c s ih =>
    simp only [includes, Bool.or_eq_true, ih, List.infix_cons_iff, List.isPrefixOf_iff_prefix]

theorem includes_nil (s : Str) : includes s [] = true := by
  rw [includes_iff]
  exact List.nil_infix

theorem trimStart_eq_nil (s : Str) : trimStart s = [] ↔ ∀ c ∈ s, isWhiteSpace c = true := by
  simp [trimStart, List.dropWhile_eq_nil_iff]

theorem trimEnd_eq_nil (s : Str) : trimEnd s = [] ↔ ∀ c ∈ s, isWhiteSpace c = true := by
  simp [trimEnd, List.dropWhile_eq_nil_iff]

theorem trimStart_head (s : Str) (c : Char) (hc : c ∈ (trimStart s).head?) :
    isWhiteSpace c = false := by
  unfold trimStart at hc
  have h := List.head?_dropWhile_not isWhiteSpace s
  rw [Option.mem_def] at hc
  rw [hc] at h
  simpa using h

/-- The guard `text.trim() === ''` holds exactly for the texts made of white space only
(the empty text among them). -/
theorem trim_eq_nil (s : Str) : trim s = [] ↔ ∀ c ∈ s, isWhiteSpace c = true := by
  constructor
  · intro h
    rw [trim, trimEnd_eq_nil] at h
    rw [← trimStart_eq_nil]
    cases hs : trimStart s with
    | nil => rfl
    | cons c t =>
      have h1 := trimStart_head s c (by simp [hs])
      have h2 := h c (by simp [hs])
      rw [h1] at h2
      cases h2
  · intro h
    rw [trim, (trimStart_eq_nil s).2 h]
    rfl

theorem lowerChar_eq_toLower (c : Char) : lowerChar c = c.toLower := by
  unfold lowerChar Char.toLower
  simp only [ge_iff_le]

/-- SQLite's `LOWER` is the fold of the ASCII letters, character by character. -/
theorem LOWER_eq_map_toLower (s : Str) : LOWER s = s.map Char.toLower := by
  unfold LOWER
  exact List.map_congr_left (fun c _ => lowerChar_eq_toLower c)

/-! ## Facts about the table -/

theorem le_maxId (rows : List Item) (r : Item) (hr : r ∈ rows) : r.id ≤ maxId rows := by
  induction rows with
  | nil => cases hr
  | cons a l ih =>
    simp only [maxId, List.foldr_cons]
    rcases List.mem_cons.1 hr with rfl | h
    · exact Nat.le_max_left _ _
    · exact Nat.le_trans (ih h) (Nat.le_max_right _ _)

theorem lt_nextId (t : Table) (r : Item) (hr : r ∈ t.rows) : r.id < t.nextId := by
  have h := le_maxId t.rows r hr
  unfold Table.nextId
  omega

theorem Inv.insert {t : Table} {name : Str} (h : Inv t.rows)
    (hnew : ∀ r ∈ t.rows, LOWER r.name ≠ LOWER name) : Inv (t.insert name).rows := by
  unfold Inv Table.insert
  simp only
  rw [List.pairwise_append]
  refine ⟨h, List.pairwise_singleton _ _, ?_⟩
  intro a ha b hb
  rw [List.mem_singleton] at hb
  subst hb
  exact ⟨hnew a ha, Nat.ne_of_lt (lt_nextId t a ha)⟩

theorem Inv.update {t : Table} {name : Str} {id : Nat} (h : Inv t.rows)
    (hnew : ∀ r ∈ t.rows, r.id ≠ id → LOWER r.name ≠ LOWER name) :
    Inv (t.update name id).rows := by
  unfold Inv Table.update
  simp only
  rw [List.pairwise_map]
  refine List.Pairwise.imp_of_mem ?_ h
  intro a b ha hb hab
  by_cases h1 : a.id = id <;> by_cases h2 : b.id = id
  · exact absurd (h1.trans h2.symm) hab.2
  · simp only [h1, h2, if_true, if_false]
    exact ⟨fun e => hnew b hb h2 e.symm, fun e => h2 e.symm⟩
  · simp only [h1, h2, if_true, if_false]
    exact ⟨hnew a ha h1, h1⟩
  · simp only [h1, h2, if_false]
    exact hab

theorem Inv.delete {t : Table} {id : Nat} (h : Inv t.rows) : Inv (t.delete id).rows := by
  unfold Inv Table.delete
  exact List.Pairwise.filter _ h

theorem fetchItems_table (s : State) : (fetchItems s).table = s.table := by
  unfold fetchItems
  split <;> rfl

/-- `fetchItems` on an open database: the listing becomes the rows of the table. -/
theorem fetchItems_open (s : State) (hdb : s.db = true) :
    fetchItems s = { s with items := s.table.rows } := by
  unfold fetchItems
  simp [hdb]

/-! ## What the handlers show -/

/-- The three ways out of `addItem`. -/
theorem addItem_cases (s : State) :
    (addItem s = .returned ∧ (s.db = false ∨ trim s.text = []))
    ∨ (addItem s = duplicateAdd ∧ s.db = true ∧ trim s.text ≠ []
        ∧ ∃ r ∈ s.table.rows, LOWER r.name = LOWER (trim s.text))
    ∨ (addItem s = .confirm "Confirm Add".toList
          ("Are you sure you want to add \"".toList ++ trim s.text ++ "\"?".toList)
          (.insert (trim s.text))
        ∧ s.db = true ∧ trim s.text ≠ []
        ∧ ∀ r ∈ s.table.rows, LOWER r.name ≠ LOWER (trim s.text)) := by
  unfold addItem
  by_cases hdb : s.db = true
  · by_cases ht : trim s.text = []
    · left
      simp [ht]
    · by_cases hex : ∃ r ∈ s.table.rows, LOWER r.name = LOWER (trim s.text)
      · right; left
        have hpos : (s.table.rows.filter
            (fun r => LOWER r.name == LOWER (trim s.text))).length > 0 := by
          obtain ⟨r, hr, he⟩ := hex
          apply List.length_pos_of_mem (a := r)
          simp [List.mem_filter, hr, he]
        simp only [hdb, Bool.not_true, Bool.false_or, beq_iff_eq, ht, if_false, hpos, if_true]
        exact ⟨trivial, trivial, ht, hex⟩
      · right; right
        have hnil : s.table.rows.filter
            (fun r => LOWER r.name == LOWER (trim s.text)) = [] := by
          rw [List.filter_eq_nil_iff]
          intro r hr he
          exact hex ⟨r, hr, by simpa using he⟩
        simp only [hdb, Bool.not_true, Bool.false_or, beq_iff_eq, ht, if_false, hnil,
          List.length_nil, gt_iff_lt, Nat.lt_irrefl]
        exact ⟨trivial, trivial, ht, fun r hr he => hex ⟨r, hr, he⟩⟩
  · left
    have hdb2 : s.db = false := by simpa using hdb
    simp [hdb2]

/-- The ways out of `updateItem` once an edit target is set. -/
theorem updateItem_cases (s : State) (e : Item) (he : s.editingItem = some e) :
    (updateItem s = .returned ∧ (s.db = false ∨ trim s.text = []))
    ∨ (updateItem s = duplicateUpdate ∧ s.db = true ∧ trim s.text ≠ []
        ∧ ∃ r ∈ s.table.rows, r.id ≠ e.id ∧ LOWER r.name = LOWER (trim s.text))
    ∨ (updateItem s = .confirm "Confirm Update".toList
          ("Are you sure you want to update the item to \"".toList ++ trim s.text
            ++ "\"?".toList)
          (.update (trim s.text) e.id)
        ∧ s.db = true ∧ trim s.text ≠ []
        ∧ ∀ r ∈ s.table.rows, r.id ≠ e.id → LOWER r.name ≠ LOWER (trim s.text)) := by
  unfold updateItem
  rw [he]
  simp only
  by_cases hdb : s.db = true
  · by_cases ht : trim s.text = []
    · left
      simp [ht]
    · by_cases hex : ∃ r ∈ s.table.rows, r.id ≠ e.id ∧ LOWER r.name = LOWER (trim s.text)
      · right; left
        have hpos : (s.table.rows.filter
            (fun r => LOWER r.name == LOWER (trim s.text) && r.id != e.id)).length > 0 := by
          obtain ⟨r, hr, hid, hn⟩ := hex
          apply List.length_pos_of_mem (a := r)
          simp [List.mem_filter, hr, hid, hn]
        simp only [hdb, Bool.not_true, Bool.false_or, beq_iff_eq, ht, if_false, hpos, if_true]
        exact ⟨trivial, trivial, ht, hex⟩
      · right; right
        have hnil : s.table.rows.filter
            (fun r => LOWER r.name == LOWER (trim s.text) && r.id != e.id) = [] := by
          rw [List.filter_eq_nil_iff]
          intro r hr hp
          simp only [Bool.and_eq_true, beq_iff_eq, bne_iff_ne, ne_eq] at hp
          exact hex ⟨r, hr, hp.2, hp.1⟩
        simp only [hdb, Bool.not_true, Bool.false_or, beq_iff_eq, ht, if_false, hnil,
          List.length_nil, gt_iff_lt, Nat.lt_irrefl]
        exact ⟨trivial, trivial, ht, fun r hr hid hn => hex ⟨r, hr, hid, hn⟩⟩
  · left
    have hdb2 : s.db = false := by simpa using hdb
    simp [hdb2]

theorem resolve_returned (b : Button) (s : State) : resolve .returned b s = s := by
  cases b <;> rfl

theorem resolve_alert (title message : Str) (b : Button) (s : State) :
    resolve (.alert title message) b s = s := by
  cases b <;> rfl

theorem resolve_cancel (o : Outcome) (s : State) : resolve o .cancel s = s := by
  cases o <;> rfl

theorem resolve_confirm (title message : Str) (c : Commit) (s : State) :
    resolve (.confirm title message c) .confirm s = commit c s :=
  rfl

theorem commit_table (c : Commit) (s : State) :
    (commit c s).table =
      match c with
      | .insert name => s.table.insert name
      | .update name id => s.table.update name id
      | .delete id => s.table.delete id := by
  cases c <;> simp [commit, fetchItems_table]

/-! ## The invariant along a run -/

theorem resolve_addItem_inv (s t : State) (b : Button) (ht : t.table = s.table)
    (h : Inv s.table.rows) : Inv (resolve (addItem s) b t).table.rows := by
  rcases addItem_cases s with ⟨e, _⟩ | ⟨e, _⟩ | ⟨e, _, _, hnew⟩
  · rw [e, resolve_returned, ht]; exact h
  · rw [e, duplicateAdd, resolve_alert, ht]; exact h
  · rw [e]
    cases b
    · rw [resolve_cancel, ht]; exact h
    · rw [resolve_confirm, commit_table, ht]
      exact h.insert hnew

theorem resolve_updateItem_inv (s : State) (b : Button) (h : Inv s.table.rows) :
    Inv (resolve (updateItem s) b s).table.rows := by
  cases he : s.editingItem with
  | none =>
    have e : updateItem s = .returned := by simp [updateItem, he]
    rw [e, resolve_returned]; exact h
  | some item =>
    rcases updateItem_cases s item he with ⟨e, _⟩ | ⟨e, _⟩ | ⟨e, _, _, hnew⟩
    · rw [e, resolve_returned]; exact h
    · rw [e, duplicateUpdate, resolve_alert]; exact h
    · rw [e]
      cases b
      · rw [resolve_cancel]; exact h
      · rw [resolve_confirm, commit_table]
        exact h.update hnew

theorem resolve_deleteItem_inv (s : State) (id : Nat) (b : Button) (h : Inv s.table.rows) :
    Inv (resolve (deleteItem s id) b s).table.rows := by
  unfold deleteItem
  split
  · rw [resolve_returned]; exact h
  · cases b
    · rw [resolve_cancel]; exact h
    · rw [resolve_confirm, commit_table]
      exact h.delete

theorem step_inv (s : State) (a : Action) (h : Inv s.table.rows) :
    Inv (step s a).table.rows := by
  cases a with
  | handleTextChange inputText => exact h
  | setSearchQuery query => exact h
  | editItem item => exact h
  | addItem b => exact resolve_addItem_inv s s b rfl h
  | updateItem b => exact resolve_updateItem_inv s b h
  | deleteItem id b => exact resolve_deleteItem_inv s id b h
  | pressAddFromSearch b => exact resolve_addItem_inv s _ b rfl h

theorem run_inv (actions : List Action) (s : State) (h : Inv s.table.rows) :
    Inv (run s actions).table.rows := by
  induction actions generalizing s with
  | nil => exact h
  | cons a l ih => exact ih (step s a) (step_inv s a h)

theorem setupDatabase_inv (s : State) (h : Inv s.table.rows) :
    Inv (setupDatabase s).table.rows := by
  unfold setupDatabase
  split
  · rename_i hlen
    have hnil : s.table.rows = [] := List.eq_nil_of_length_eq_zero hlen
    have h1 : Inv (s.table.insert "test1".toList).rows :=
      h.insert (by rw [hnil]; intro r hr; cases hr)
    have h2 : Inv ((s.table.insert "test1".toList).insert "test2".toList).rows :=
      h1.insert (by
        simp only [Table.insert, hnil, List.nil_append, List.mem_singleton]
        intro r hr; subst hr; show LOWER "test1".toList ≠ LOWER "test2".toList; decide)
    exact h2.insert (by
      simp only [Table.insert, hnil, List.nil_append, List.cons_append, List.mem_cons,
        List.mem_singleton, List.not_mem_nil, or_false]
      intro r hr
      rcases hr with rfl | rfl
      · show LOWER "test1".toList ≠ LOWER "test3".toList; decide
      · show LOWER "test2".toList ≠ LOWER "test3".toList; decide)
  · exact h

theorem mount_inv (s : State) (h : Inv s.table.rows) : Inv (mount s).table.rows := by
  unfold mount
  rw [fetchItems_table]
  exact setupDatabase_inv s h

/-! ## The claims about the store -/

/-- C1, as stated, fails: on a first launch, after the mount effect, adding the name ECLAIR
with a capital E acute and then the same name in small letters stores both (each add shows
its prompt and is confirmed); the two rows are distinct and their names are the same
regardless of casing. -/
theorem eclair_both_stored :
    fresh.table.rows = []
      ∧ names (run (mount fresh) eclairSession).table.rows
        = ["test1".toList, "test2".toList, "test3".toList, "\u00c9CLAIR".toList,
           "\u00e9clair".toList]
      ∧ SameIgnoringCase "\u00c9CLAIR".toList "\u00e9clair".toList
      ∧ ¬ CaseInsensitiveUnique (run (mount fresh) eclairSession).table.rows := by
  unfold CaseInsensitiveUnique SameIgnoringCase
  decide

/-- C1, amended: uniqueness of names up to the case of the ASCII letters is an invariant:
from an empty table, after the mount effect (`setupDatabase`, then `fetchItems`) and any
sequence of user actions, each carried to its end (rejected, cancelled or confirmed) before
the next, no two rows of the table have names that are the same up to the case of the
letters `A`-`Z`. -/
theorem asciiCaseUnique_invariant (s : State) (actions : List Action)
    (hempty : s.table.rows = []) : AsciiCaseUnique (run (mount s) actions).table.rows := by
  have h : Inv (run (mount s) actions).table.rows := by
    apply run_inv
    apply mount_inv
    rw [hempty]
    exact List.Pairwise.nil
  refine List.Pairwise.imp ?_ h
  intro a b hab hsame
  apply hab.1
  unfold SameIgnoringAsciiCase at hsame
  rw [LOWER_eq_map_toLower, LOWER_eq_map_toLower]
  exact hsame

/-- Witness of C1 (amended): the sample session on a first launch; the add of TEST1 and the
rename to pear are refused, and the rows left have names that differ beyond ASCII case. -/
theorem asciiCaseUnique_invariant_witness :
    fresh.table.rows = []
      ∧ names (run (mount fresh) session).table.rows
        = ["Test2".toList, "test3".toList, "Pear".toList]
      ∧ AsciiCaseUnique (run (mount fresh) session).table.rows :=
  ⟨rfl, by decide, asciiCaseUnique_invariant fresh session rfl⟩

/-- C2, as stated, fails: on a launch over a database that holds Apple, while the handle
`db` is still null, the text apple matches the stored name after lowercasing, and `addItem`
returns at its guard without the duplicate notice. -/
theorem addItem_unopened_not_rejected :
    (∃ r ∈ unopened.table.rows, LOWER (trim unopened.text) = LOWER r.name)
      ∧ (∀ r ∈ unopened.table.rows, r.name ≠ [])
      ∧ addItem unopened = .returned ∧ addItem unopened ≠ duplicateAdd := by
  decide

/-- C2, amended: in a store whose handle is open (its names non-empty, as the data model has
every item), for every input text whose trimmed value is `LOWER`-equal to the name of some
stored row, `addItem` shows the duplicate notice (no confirmation), and the whole state, the
rows and their count among it, is unchanged whatever is pressed. -/
theorem addItem_duplicate (s : State) (hdb : s.db = true)
    (hnames : ∀ r ∈ s.table.rows, r.name ≠ [])
    (hdup : ∃ r ∈ s.table.rows, LOWER (trim s.text) = LOWER r.name) :
    addItem s = duplicateAdd
      ∧ ∀ b, step s (.addItem b) = s
        ∧ (step s (.addItem b)).table.rows.length = s.table.rows.length := by
  have hne : trim s.text ≠ [] := by
    intro ht
    obtain ⟨r, hr, h⟩ := hdup
    rw [ht] at h
    exact hnames r hr (List.map_eq_nil_iff.1 h.symm)
  have e : addItem s = duplicateAdd := by
    rcases addItem_cases s with ⟨_, h | h⟩ | ⟨e, _⟩ | ⟨_, _, _, hnew⟩
    · rw [hdb] at h; cases h
    · exact absurd h hne
    · exact e
    · obtain ⟨r, hr, h⟩ := hdup
      exact absurd h.symm (hnew r hr)
  refine ⟨e, fun b => ?_⟩
  have hs : step s (.addItem b) = s := by
    show resolve (addItem s) b s = s
    rw [e, duplicateAdd, resolve_alert]
  exact ⟨hs, by rw [hs]⟩

/-- Witness of C2 (amended): with Apple stored, "apple" and "APPLE " are both rejected. -/
theorem addItem_duplicate_witness :
    addItem (appleStore "apple".toList) = duplicateAdd
      ∧ addItem (appleStore "APPLE ".toList) = duplicateAdd :=
  ⟨(addItem_duplicate (appleStore "apple".toList) rfl (by decide) (by decide)).1,
   (addItem_duplicate (appleStore "APPLE ".toList) rfl (by decide) (by decide)).1⟩

/-- C3: in an open store with `LOWER`-unique names, with an edit target and an input text
that is non-empty after trimming, `updateItem` shows the duplicate notice exactly when a row
with another id has a name `LOWER`-equal to the trimmed text, and then nothing changes;
renaming a row to its own current name (the trimmed text is the name of the row with the
target id; any other casing of it likewise) is not rejected and shows the confirmation. -/
theorem updateItem_duplicate_iff (s : State) (e : Item) (he : s.editingItem = some e)
    (hdb : s.db = true) (hne : trim s.text ≠ []) (huniq : UniqueNames s.table.rows) :
    (updateItem s = duplicateUpdate
        ↔ ∃ r ∈ s.table.rows, r.id ≠ e.id ∧ LOWER r.name = LOWER (trim s.text))
      ∧ (updateItem s = duplicateUpdate → ∀ b, step s (.updateItem b) = s)
      ∧ (∀ r ∈ s.table.rows, r.id = e.id → LOWER (trim s.text) = LOWER r.name →
          updateItem s ≠ duplicateUpdate
            ∧ updateItem s = .confirm "Confirm Update".toList
                ("Are you sure you want to update the item to \"".toList ++ trim s.text
                  ++ "\"?".toList)
                (.update (trim s.text) e.id)) := by
  have hcases := updateItem_cases s e he
  refine ⟨⟨fun h => ?_, fun h => ?_⟩, fun h b => ?_, fun r hr hid hname => ?_⟩
  · rcases hcases with ⟨e1, _⟩ | ⟨_, _, _, hex⟩ | ⟨e1, _⟩
    · rw [e1] at h; cases h
    · exact hex
    · rw [e1] at h; cases h
  · rcases hcases with ⟨_, h1 | h1⟩ | ⟨e1, _⟩ | ⟨_, _, _, hnew⟩
    · rw [hdb] at h1; cases h1
    · exact absurd h1 hne
    · exact e1
    · obtain ⟨r, hr, hid, hn⟩ := h
      exact absurd hn (hnew r hr hid)
  · show resolve (updateItem s) b s = s
    rw [h, duplicateUpdate, resolve_alert]
  · rcases hcases with ⟨_, h1 | h1⟩ | ⟨_, _, _, hex⟩ | ⟨e1, _⟩
    · rw [hdb] at h1; cases h1
    · exact absurd h1 hne
    · obtain ⟨q, hq, hqid, hqn⟩ := hex
      have hsym : Symmetric (fun a b : Item => LOWER a.name ≠ LOWER b.name) :=
        fun _ _ hab => fun e2 => hab e2.symm
      have hqr : q ≠ r := fun e2 => hqid (by rw [e2, hid])
      exact absurd (hqn.trans hname) (List.Pairwise.forall hsym huniq hq hr hqr)
    · exact ⟨(by rw [e1]; intro h2; cases h2), e1⟩

/-- Witness of C3: with Apple (1) and Banana (2), `updateItem(1, "Apple")` reaches the
confirmation and `updateItem(1, "banana")` is rejected. -/
theorem updateItem_duplicate_iff_witness :
    updateItem (appleBanana "Apple".toList) ≠ duplicateUpdate
      ∧ updateItem (appleBanana "banana".toList) = duplicateUpdate :=
  ⟨((updateItem_duplicate_iff (appleBanana "Apple".toList) ⟨1, "Apple".toList⟩ rfl rfl
      (by decide) (by unfold UniqueNames; decide)).2.2 ⟨1, "Apple".toList⟩ (by decide) rfl (by decide)).1,
   (updateItem_duplicate_iff (appleBanana "banana".toList) ⟨1, "Apple".toList⟩ rfl rfl
      (by decide) (by unfold UniqueNames; decide)).1.2 (by decide)⟩

/-- C6: `setupDatabase` is idempotent: run twice in a row it leaves the state, hence the
rows, that one run leaves; the second run inserts nothing; and a run on a table that has a
row inserts nothing either. -/
theorem setupDatabase_idempotent (s : State) :
    setupDatabase (setupDatabase s) = setupDatabase s
      ∧ (setupDatabase (setupDatabase s)).table.rows = (setupDatabase s).table.rows
      ∧ (s.table.rows ≠ [] → (setupDatabase s).table = s.table) := by
  have hne : ∀ t : State, t.table.rows ≠ [] → setupDatabase t = { t with db := true } := by
    intro t ht
    unfold setupDatabase
    rw [if_neg]
    intro hlen
    exact ht (List.eq_nil_of_length_eq_zero hlen)
  have h1 : setupDatabase (setupDatabase s) = setupDatabase s := by
    by_cases h : s.table.rows = []
    · have hs : (setupDatabase s).table.rows ≠ [] := by
        simp [setupDatabase, h, Table.insert]
      rw [hne _ hs]
      simp [setupDatabase, h]
    · rw [hne s h]
      exact hne _ h
  refine ⟨h1, by rw [h1], fun h => ?_⟩
  rw [hne s h]

/-- Witness of C6: on the three-row store a run of `setupDatabase` changes no row. -/
theorem setupDatabase_idempotent_witness :
    threeRows.table.rows ≠ [] ∧ (setupDatabase threeRows).table = threeRows.table :=
  ⟨by decide, (setupDatabase_idempotent threeRows).2.2 (by decide)⟩

/-- C7: for an input text that is empty or made of white space only, `addItem` and
`updateItem` return without showing anything (no notice, no prompt), and the state (rows,
listing, input text, edit target, search query) is unchanged. -/
theorem blank_input_noop (s : State) (hblank : ∀ c ∈ s.text, isWhiteSpace c = true) :
    addItem s = .returned ∧ updateItem s = .returned
      ∧ ∀ b, step s (.addItem b) = s ∧ step s (.updateItem b) = s := by
  have ht : trim s.text = [] := (trim_eq_nil s.text).2 hblank
  have ha : addItem s = .returned := by
    simp [addItem, ht]
  have hu : updateItem s = .returned := by
    unfold updateItem
    cases s.editingItem <;> simp [ht]
  refine ⟨ha, hu, fun b => ⟨?_, ?_⟩⟩
  · show resolve (addItem s) b s = s
    rw [ha, resolve_returned]
  · show resolve (updateItem s) b s = s
    rw [hu, resolve_returned]

/-- Witness of C7: `addItem("   ")`, and `updateItem` with the same text. -/
theorem blank_input_noop_witness :
    addItem (appleBanana "   ".toList) = .returned
      ∧ updateItem (appleBanana "   ".toList) = .returned
      ∧ step (appleBanana "   ".toList) (.addItem .confirm) = appleBanana "   ".toList :=
  have h := blank_input_noop (appleBanana "   ".toList) (by decide)
  ⟨h.1, h.2.1, (h.2.2 .confirm).1⟩

/-- C8: in an open store `deleteItem(id)` shows its prompt, and once confirmed the table holds
exactly the rows whose id differs from `id`, unchanged and in their order, and the listing
shows them; when no row has that id, the table is unchanged. -/
theorem deleteItem_confirmed (s : State) (id : Nat) (hdb : s.db = true) :
    deleteItem s id = .confirm "Confirm Delete".toList
        "Are you sure you want to delete this item?".toList (.delete id)
      ∧ (step s (.deleteItem id .confirm)).table.rows
          = s.table.rows.filter (fun r => decide (r.id ≠ id))
      ∧ (step s (.deleteItem id .confirm)).items
          = s.table.rows.filter (fun r => decide (r.id ≠ id))
      ∧ (step s (.deleteItem id .confirm)).table.rows.Sublist s.table.rows
      ∧ ((∀ r ∈ s.table.rows, r.id ≠ id) →
          (step s (.deleteItem id .confirm)).table = s.table) := by
  have hd : deleteItem s id = .confirm "Confirm Delete".toList
      "Are you sure you want to delete this item?".toList (.delete id) := by
    simp [deleteItem, hdb]
  have hs : step s (.deleteItem id .confirm)
      = { s with table := s.table.delete id, items := (s.table.delete id).rows } := by
    show resolve (deleteItem s id) .confirm s = _
    rw [hd, resolve_confirm]
    show fetchItems { s with table := s.table.delete id } = _
    exact fetchItems_open { s with table := s.table.delete id } hdb
  rw [hs]
  refine ⟨hd, rfl, rfl, List.filter_sublist _, fun h => ?_⟩
  show s.table.delete id = s.table
  unfold Table.delete
  have hf : s.table.rows.filter (fun r => decide (r.id ≠ id)) = s.table.rows := by
    rw [List.filter_eq_self]
    intro r hr
    simpa using h r hr
  rw [hf]

/-- Witness of C8: `deleteItem(9999)` on a store without id 9999. -/
theorem deleteItem_confirmed_witness :
    (∀ r ∈ threeRows.table.rows, r.id ≠ 9999)
      ∧ (step threeRows (.deleteItem 9999 .confirm)).table = threeRows.table :=
  ⟨by decide, (deleteItem_confirmed threeRows 9999 rfl).2.2.2.2 (by decide)⟩

/-- C10: the "Add <query>" button does not add the search query.  When the item input is
empty or white space only, `addItem` returns at its guard: nothing is shown, and whatever would
be pressed the only change is that the item input becomes the search query (the table is
unchanged).  When the item input is non-blank (store open), the name checked against the rows
and, if it is new, offered by the prompt and inserted on Confirm is the trimmed item input. -/
theorem pressAddFromSearch_spec (s : State) :
    ((∀ c ∈ s.text, isWhiteSpace c = true) →
        addItem s = .returned
          ∧ ∀ b, pressAddFromSearch s b = { s with text := s.searchQuery }
            ∧ (pressAddFromSearch s b).table = s.table)
      ∧ (s.db = true → trim s.text ≠ [] →
          (addItem s = duplicateAdd
              ∧ (∃ r ∈ s.table.rows, LOWER r.name = LOWER (trim s.text))
              ∧ ∀ b, pressAddFromSearch s b = { s with text := s.searchQuery })
            ∨ (addItem s = .confirm "Confirm Add".toList
                  ("Are you sure you want to add \"".toList ++ trim s.text ++ "\"?".toList)
                  (.insert (trim s.text))
                ∧ (∀ r ∈ s.table.rows, LOWER r.name ≠ LOWER (trim s.text))
                ∧ (pressAddFromSearch s .confirm).table.rows
                    = s.table.rows ++ [⟨s.table.nextId, trim s.text⟩]
                ∧ pressAddFromSearch s .cancel = { s with text := s.searchQuery })) := by
  constructor
  · intro hblank
    have ht : trim s.text = [] := (trim_eq_nil s.text).2 hblank
    have ha : addItem s = .returned := by simp [addItem, ht]
    refine ⟨ha, fun b => ?_⟩
    have hp : pressAddFromSearch s b = { s with text := s.searchQuery } := by
      unfold pressAddFromSearch
      rw [ha, resolve_returned]
    exact ⟨hp, by rw [hp]⟩
  · intro hdb hne
    rcases addItem_cases s with ⟨_, h | h⟩ | ⟨e, _, _, hex⟩ | ⟨e, _, _, hnew⟩
    · rw [hdb] at h; cases h
    · exact absurd h hne
    · left
      refine ⟨e, hex, fun b => ?_⟩
      unfold pressAddFromSearch
      rw [e, duplicateAdd, resolve_alert]
    · right
      refine ⟨e, hnew, ?_, ?_⟩
      · unfold pressAddFromSearch
        rw [e, resolve_confirm, commit_table]
        rfl
      · unfold pressAddFromSearch
        rw [resolve_cancel]

/-- Witness of C10: with kiwi searched, the button adds nothing when the item input is empty,
and adds pear, not kiwi, when pear is in the item input. -/
theorem pressAddFromSearch_spec_witness :
    pressAddFromSearch (searching []) .confirm
        = { searching [] with text := "kiwi".toList }
      ∧ names (pressAddFromSearch (searching "pear".toList) .confirm).table.rows
        = ["test1".toList, "test2".toList, "test3".toList, "pear".toList] := by
  refine ⟨(((pressAddFromSearch_spec (searching [])).1 (by decide)).2 .confirm).1, ?_⟩
  rcases (pressAddFromSearch_spec (searching "pear".toList)).2 rfl (by decide) with
    ⟨_, hex, _⟩ | ⟨_, _, h, _⟩
  · exact absurd hex (by decide)
  · rw [h]; decide

/-- C9: the end-to-end scenario.  From an empty table (whatever ids were handed out before:
`n` is the last one), the mount effect lists test1, test2, test3; a confirmed add of test4
lists it fourth; a confirmed update of the row of test2 to updated2 renames that row in place
and leaves every other row as it was; a confirmed delete of the row of test1 leaves a listing
without test1, one row shorter.  At each stage the listing is the table. -/
theorem end_to_end (s : State) (hempty : s.table.rows = []) :
    (mount s).items
        = [⟨s.table.seq + 1, "test1".toList⟩, ⟨s.table.seq + 2, "test2".toList⟩,
           ⟨s.table.seq + 3, "test3".toList⟩]
      ∧ (scenarioAdd (mount s)).items
        = [⟨s.table.seq + 1, "test1".toList⟩, ⟨s.table.seq + 2, "test2".toList⟩,
           ⟨s.table.seq + 3, "test3".toList⟩, ⟨s.table.seq + 4, "test4".toList⟩]
      ∧ (scenarioUpdate (scenarioAdd (mount s))).items
        = [⟨s.table.seq + 1, "test1".toList⟩, ⟨s.table.seq + 2, "updated2".toList⟩,
           ⟨s.table.seq + 3, "test3".toList⟩, ⟨s.table.seq + 4, "test4".toList⟩]
      ∧ (scenarioDelete (scenarioUpdate (scenarioAdd (mount s)))).items
        = [⟨s.table.seq + 2, "updated2".toList⟩,
           ⟨s.table.seq + 3, "test3".toList⟩, ⟨s.table.seq + 4, "test4".toList⟩]
      ∧ (mount s).table.rows = (mount s).items
      ∧ (scenarioAdd (mount s)).table.rows = (scenarioAdd (mount s)).items
      ∧ (scenarioUpdate (scenarioAdd (mount s))).table.rows
          = (scenarioUpdate (scenarioAdd (mount s))).items
      ∧ (scenarioDelete (scenarioUpdate (scenarioAdd (mount s)))).table.rows
          = (scenarioDelete (scenarioUpdate (scenarioAdd (mount s)))).items := by
  obtain ⟨db, ⟨rows, n⟩, text, items, editingItem, searchQuery⟩ := s
  simp only at hempty
  subst hempty
  have h1 : mount ⟨db, ⟨[], n⟩, text, items, editingItem, searchQuery⟩
      = { db := true,
          table := { rows := [⟨n + 1, "test1".toList⟩, ⟨n + 2, "test2".toList⟩,
                              ⟨n + 3, "test3".toList⟩], seq := n + 3 },
          text := text,
          items := [⟨n + 1, "test1".toList⟩, ⟨n + 2, "test2".toList⟩, ⟨n + 3, "test3".toList⟩],
          editingItem := editingItem,
          searchQuery := searchQuery } := by
    simp [mount, setupDatabase, fetchItems, Table.insert, Table.nextId, maxId]
  have t4 : trim "test4".toList = "test4".toList := by decide
  have u2 : trim "updated2".toList = "updated2".toList := by decide
  have h2 : scenarioAdd (mount ⟨db, ⟨[], n⟩, text, items, editingItem, searchQuery⟩)
      = { db := true,
          table := { rows := [⟨n + 1, "test1".toList⟩, ⟨n + 2, "test2".toList⟩,
                              ⟨n + 3, "test3".toList⟩, ⟨n + 4, "test4".toList⟩],
                     seq := n + 4 },
          text := [],
          items := [⟨n + 1, "test1".toList⟩, ⟨n + 2, "test2".toList⟩, ⟨n + 3, "test3".toList⟩,
                    ⟨n + 4, "test4".toList⟩],
          editingItem := editingItem,
          searchQuery := [] } := by
    rw [h1]
    simp only [scenarioAdd, run, List.foldl_cons, List.foldl_nil, step, addItem, t4]
    simp [resolve, commit, fetchItems, Table.insert, Table.nextId, maxId, LOWER, lowerChar]
  have h3 : scenarioUpdate (scenarioAdd (mount ⟨db, ⟨[], n⟩, text, items, editingItem,
        searchQuery⟩))
      = { db := true,
          table := { rows := [⟨n + 1, "test1".toList⟩, ⟨n + 2, "updated2".toList⟩,
                              ⟨n + 3, "test3".toList⟩, ⟨n + 4, "test4".toList⟩],
                     seq := n + 4 },
          text := [],
          items := [⟨n + 1, "test1".toList⟩, ⟨n + 2, "updated2".toList⟩,
                    ⟨n + 3, "test3".toList⟩, ⟨n + 4, "test4".toList⟩],
          editingItem := none,
          searchQuery := [] } := by
    rw [h2]
    simp only [scenarioUpdate, rowOf, run, List.foldl_cons, List.foldl_nil, step, editItem,
      updateItem, u2]
    simp [resolve, commit, fetchItems, Table.update, LOWER, lowerChar]
  have h4 : scenarioDelete (scenarioUpdate (scenarioAdd (mount ⟨db, ⟨[], n⟩, text, items,
        editingItem, searchQuery⟩)))
      = { db := true,
          table := { rows := [⟨n + 2, "updated2".toList⟩,
                              ⟨n + 3, "test3".toList⟩, ⟨n + 4, "test4".toList⟩],
                     seq := n + 4 },
          text := [],
          items := [⟨n + 2, "updated2".toList⟩,
                    ⟨n + 3, "test3".toList⟩, ⟨n + 4, "test4".toList⟩],
          editingItem := none,
          searchQuery := [] } := by
    rw [h3]
    simp [scenarioDelete, rowOf, run, step, deleteItem, resolve, commit, fetchItems,
      Table.delete]
  rw [h4, h3, h2, h1]
  simp

/-- Witness of C9: the scenario on a first launch. -/
theorem end_to_end_witness :
    names (mount fresh).items = ["test1".toList, "test2".toList, "test3".toList]
      ∧ names (scenarioAdd (mount fresh)).items
        = ["test1".toList, "test2".toList, "test3".toList, "test4".toList]
      ∧ names (scenarioUpdate (scenarioAdd (mount fresh))).items
        = ["test1".toList, "updated2".toList, "test3".toList, "test4".toList]
      ∧ names (scenarioDelete (scenarioUpdate (scenarioAdd (mount fresh)))).items
        = ["updated2".toList, "test3".toList, "test4".toList] := by
  obtain ⟨h1, h2, h3, h4, _⟩ := end_to_end fresh rfl
  rw [h1, h2, h3, h4]
  decide

/-! ## The search filter -/

/-- C4: `filteredItems` is the listing filtered, in order, by "the lower-cased name contains the
lower-cased query as a contiguous substring"; it is a sub-sequence of the listing; and for the
empty query (which lower-cases to the empty string) it is the whole listing. -/
theorem filteredItems_spec (toLowerCase : Str → Str) (s : State) :
    filteredItems toLowerCase s
        = s.items.filter
            (fun item => decide (toLowerCase s.searchQuery <:+: toLowerCase item.name))
      ∧ (filteredItems toLowerCase s).Sublist s.items
      ∧ (toLowerCase [] = [] → s.searchQuery = [] → filteredItems toLowerCase s = s.items) := by
  refine ⟨?_, List.filter_sublist _, ?_⟩
  · unfold filteredItems
    apply List.filter_congr
    intro item _
    rw [Bool.eq_iff_iff, includes_iff]
    simp
  · intro hnil hq
    unfold filteredItems
    rw [hq, hnil]
    simp [includes_nil]

/-- Witness of C4: the fruit listing with the query cleared. -/
theorem filteredItems_spec_witness :
    filteredItems toLowerCaseASCII { fruits with searchQuery := [] } = fruits.items :=
  (filteredItems_spec toLowerCaseASCII { fruits with searchQuery := [] }).2.2 rfl rfl

/-- C5, as stated, fails: with the listing Apple, Banana, grape and the query AP the filter
keeps grape as well, since "grape" contains "ap" at index 2. -/
theorem filter_AP_not_only_Apple :
    names (filteredItems toLowerCaseASCII fruits) = ["Apple".toList, "grape".toList]
      ∧ names (filteredItems toLowerCaseASCII fruits) ≠ ["Apple".toList]
      ∧ includes (toLowerCaseASCII "grape".toList) (toLowerCaseASCII "AP".toList) = true := by
  decide

/-- C5, amended: for every listing whose names are Apple, Banana, grape in that order, and
the query AP, the filter returns exactly the rows of Apple and grape, in that order, whenever
`toLowerCase` lower-cases the four strings involved as ECMAScript does. -/
theorem filter_AP_Apple_grape (toLowerCase : Str → Str) (s : State)
    (hApple : toLowerCase "Apple".toList = "apple".toList)
    (hBanana : toLowerCase "Banana".toList = "banana".toList)
    (hgrape : toLowerCase "grape".toList = "grape".toList)
    (hAP : toLowerCase "AP".toList = "ap".toList)
    (hitems : names s.items = ["Apple".toList, "Banana".toList, "grape".toList])
    (hquery : s.searchQuery = "AP".toList) :
    names (filteredItems toLowerCase s) = ["Apple".toList, "grape".toList]
      ∧ ∃ a b c, s.items = [a, b, c] ∧ filteredItems toLowerCase s = [a, c] := by
  obtain ⟨db, table, text, items, editingItem, searchQuery⟩ := s
  simp only at hquery hitems
  subst hquery
  rcases items with _ | ⟨a, _ | ⟨b, _ | ⟨c, _ | ⟨d, l⟩⟩⟩⟩ <;>
    simp only [names, List.map_cons, List.map_nil, List.cons.injEq, and_true, and_false,
      false_and, reduceCtorEq] at hitems
  · obtain ⟨ha, hb, hc⟩ := hitems
    have h1 : includes (toLowerCase a.name) (toLowerCase "AP".toList) = true := by
      rw [ha, hApple, hAP]; decide
    have h2 : includes (toLowerCase b.name) (toLowerCase "AP".toList) = false := by
      rw [hb, hBanana, hAP]; decide
    have h3 : includes (toLowerCase c.name) (toLowerCase "AP".toList) = true := by
      rw [hc, hgrape, hAP]; decide
    have hf : filteredItems toLowerCase
        { db := db, table := table, text := text, items := [a, b, c],
          editingItem := editingItem, searchQuery := "AP".toList } = [a, c] := by
      simp only [filteredItems, List.filter_cons, List.filter_nil, h1, h2, h3]
      simp
    exact ⟨by rw [hf]; simp [names, ha, hc], a, b, c, rfl, hf⟩

/-- Witness of C5 (amended): the fruit listing, with the ASCII lower-casing. -/
theorem filter_AP_Apple_grape_witness :
    names (filteredItems toLowerCaseASCII fruits) = ["Apple".toList, "grape".toList] :=
  (filter_AP_Apple_grape toLowerCaseASCII fruits (by decide) (by decide) (by decide)
    (by decide) (by decide) (by decide)).1

end ItemPena
